import Mathlib

/-!
# Verification of `skpy/util.py` (SkypeUtils)

Shallow embedding of the utility module of the SkPy library: Python
dictionaries become association lists, Python strings become `String`
(or `List Char` where character-level reasoning is needed), Python
`None` becomes `Option.none`, and raising an exception becomes an
`Except`/error component of the result.
-/

namespace SkpyUtil

/-! ## Python dictionaries as association lists

A Python `dict` is modelled as an association list whose keys are
distinct; lookup scans for the first matching key, assignment replaces
the value in place for an existing key and appends a fresh binding
otherwise (matching CPython's preserved insertion order). -/

def dictGet [DecidableEq κ] : List (κ × α) → κ → Option α
  | [], _ => none
  | (k₀, v) :: rest, k => if k₀ = k then some v else dictGet rest k

def dictSet [DecidableEq κ] : List (κ × α) → κ → α → List (κ × α)
  | [], k, v => [(k, v)]
  | (k₀, v₀) :: rest, k, v =>
      if k₀ = k then (k₀, v) :: rest else (k₀, v₀) :: dictSet rest k v

def dictKeys (d : List (κ × α)) : List κ := d.map Prod.fst

/-! ## `SkypeUtils.noPrefix`

`return s if s is None else s.split(":", 1)[1]`.  Strings are modelled
as `List Char`; `pySplit1` models `str.split(":", 1)`, which yields the
whole string as a one-element list when no colon occurs, and the parts
before and after the first colon otherwise.  Indexing `[1]` on a
one-element list raises `IndexError`, modelled as the error branch. -/

def pySplit1 : List Char → List (List Char)
  | [] => [[]]
  | c :: cs =>
      if c = ':' then [[], cs]
      else
        match pySplit1 cs with
        | first :: rest => (c :: first) :: rest
        | [] => [[c]]

def noPrefix (s : Option (List Char)) : Except String (Option (List Char)) :=
  match s with
  | none => Except.ok none
  | some t =>
      match pySplit1 t with
      | _ :: second :: _ => Except.ok (some second)
      | _ => Except.error "IndexError: list index out of range"

/-! ## `SkypeUtils.initAttrs`

The generated `__init__` does, in order:
1. `super(cls, self).__init__(skype, raw)` — modelled as a `callSuper`
   trace event;
2. `for i in range(len(args)): kwargs[cls.attrs[i]] = args[i]` — merge
   positional arguments into the keyword dict (`IndexError` when there
   are more positional arguments than schema attributes);
3. `unknown = set(kwargs) - set(cls.attrs); if unknown: raise TypeError(...)`
   with the unknown names sorted in the message;
4. `for k in cls.attrs: setattr(self, k, kwargs.get(k, cls.defaults.get(k)))`
   — modelled as `setAttr` trace events.

Python attribute values are `Option β`, with `none` standing for
Python's `None`.  The result is the ordered trace of side effects paired
with the raised error message, if any. -/

inductive Event (β : Type) where
  | callSuper : Event β
  | setAttr (name : String) (value : Option β) : Event β
  deriving DecidableEq

/-- A single quote character, used by Python's error-message formatting. -/
def sq : String := String.singleton (Char.ofNat 39)

def pyQuote (s : String) : String := sq ++ s ++ sq

/-- The message of the `TypeError` raised on unknown keyword arguments:
`"__init__() got {0} {1}".format(unknownDesc, unknownList)`. -/
def unknownArgsMsg (unknown : List String) : String :=
  let unknownDesc :=
    if unknown.length = 1 then "an unexpected keyword argument"
    else "unexpected keyword arguments"
  let unknownList := String.intercalate ", " (unknown.map pyQuote)
  "__init__() got " ++ unknownDesc ++ " " ++ unknownList

/-- Python's `sorted` on a set of distinct strings (insertion sort;
agrees with any correct comparison sort on deduplicated input). -/
def insertSorted (x : String) : List String → List String
  | [] => [x]
  | y :: ys => if x ≤ y then x :: y :: ys else y :: insertSorted x ys

def pySorted (l : List String) : List String := l.foldr insertSorted []

/-- Python dict get: `kwargs.get(k, dflt)`. -/
def pyGet (d : List (String × Option β)) (k : String) (dflt : Option β) : Option β :=
  (dictGet d k).getD dflt

/-- The merge loop `for i in range(len(args)): kwargs[cls.attrs[i]] = args[i]`,
recursing over the positional arguments and the matching prefix of the
attribute list; `cls.attrs[i]` out of range raises `IndexError`. -/
def mergeLoop : List (Option β) → List String → List (String × Option β) →
    Except String (List (String × Option β))
  | [], _, kw => Except.ok kw
  | _ :: _, [], _ => Except.error "IndexError: tuple index out of range"
  | a :: as, k :: ks, kw => mergeLoop as ks (dictSet kw k a)

/-- The merge loop's result in the non-raising case. -/
def mergeList : List (Option β) → List String → List (String × Option β) →
    List (String × Option β)
  | [], _, kw => kw
  | _ :: _, [], kw => kw
  | a :: as, k :: ks, kw => mergeList as ks (dictSet kw k a)

/-- The generated initializer: trace of side effects plus the raised
error, if any. -/
def initAttrsInit (attrs : List String) (defaults : List (String × Option β))
    (args : List (Option β)) (kwargs : List (String × Option β)) :
    List (Event β) × Option String :=
  match mergeLoop args attrs kwargs with
  | Except.error e => ([Event.callSuper], some e)
  | Except.ok merged =>
      let unknown := ((dictKeys merged).filter (fun k => decide (k ∉ attrs))).dedup
      if unknown = [] then
        (Event.callSuper ::
          attrs.map (fun k => Event.setAttr k (pyGet merged k (pyGet defaults k none))),
         none)
      else
        ([Event.callSuper], some (unknownArgsMsg (pySorted unknown)))

/-- Replay of the attribute assignments in a trace (later writes win),
giving the instance's final attribute dictionary. -/
def applyEvent (d : List (String × Option β)) : Event β → List (String × Option β)
  | Event.callSuper => d
  | Event.setAttr k v => dictSet d k v

def finalAttrs (tr : List (Event β)) : List (String × Option β) :=
  tr.foldl applyEvent []

/-! ## `SkypeUtils.cacheResult`

The wrapper keeps a dict `cache`; on each call it builds
`key = args + (str(kwargs),)`, bypasses the cache when any key component
is unhashable, and otherwise stores on first use:
```
if key not in cache:
    cache[key] = fn(*args, **kwargs)
return cache[key]
```
Python values are modelled by a small closed type `PyVal` (ints and
strings are hashable, lists are not).  `str(kwargs)` is the dict repr in
keyword order, as produced by CPython 3.7+ keyword dicts (value reprs
are faithful for quote-free strings).  `cacheStep` returns the call's
result, the cache afterwards, and how many times `fn` was invoked. -/

inductive PyVal where
  | int (n : Int)
  | str (s : String)
  | pylist (xs : List Int)
  deriving DecidableEq

def pyHashable : PyVal → Bool
  | PyVal.int _ => true
  | PyVal.str _ => true
  | PyVal.pylist _ => false

def pyRepr : PyVal → String
  | PyVal.int n => toString n
  | PyVal.str s => pyQuote s
  | PyVal.pylist xs => "[" ++ String.intercalate ", " (xs.map toString) ++ "]"

/-- Model of `str(kwargs)`: the dict repr, following the order in which the
keywords were supplied. -/
def strKwargs (kwargs : List (String × PyVal)) : String :=
  "\x7b" ++ String.intercalate ", "
    (kwargs.map (fun p => pyQuote p.1 ++ ": " ++ pyRepr p.2)) ++ "\x7d"

def PyFn := List PyVal → List (String × PyVal) → PyVal

/-- The cache key `args + (str(kwargs),)`. -/
def keyOf (args : List PyVal) (kwargs : List (String × PyVal)) : List PyVal :=
  args ++ [PyVal.str (strKwargs kwargs)]

/-- One call through the memoizing wrapper: result value, cache after
the call, and number of invocations of the wrapped function. -/
def cacheStep (f : PyFn) (cache : List (List PyVal × PyVal))
    (args : List PyVal) (kwargs : List (String × PyVal)) :
    PyVal × List (List PyVal × PyVal) × Nat :=
  let key := keyOf args kwargs
  if ¬ (key.all pyHashable) then (f args kwargs, cache, 1)
  else
    match dictGet cache key with
    | some v => (v, cache, 0)
    | none => (f args kwargs, dictSet cache key (f args kwargs), 1)

/-- A concrete constant function used to exercise the wrapper. -/
def constSeven : PyFn := fun _ _ => PyVal.int 7

/-! ## `SkypeUtils.convertIds` — single-identifier (user) accessors

`userObj(self, field)` is `return self.skype.contacts[getattr(self, field)]`,
attached as a read-only property.  The contacts directory itself is
defined elsewhere in the library, so its lookup is modelled from the
spec. -/

/-- Modelled from the spec: a session directory (the contacts/chats
stores, defined outside this module) is an identifier-keyed store whose
lookup "either returns the entity or signals a miss"; a miss is a
lookup failure (`KeyError`), not silently tolerated. -/
def dirLookup (dir : List (String × ε)) (ident : String) : Except String ε :=
  match dictGet dir ident with
  | some e => Except.ok e
  | none => Except.error ("KeyError: " ++ pyQuote ident)

structure Session (ε : Type) where
  contacts : List (String × ε)
  chats : List (String × ε)

/-- An entity as the accessor sees it: the owning session plus the
entity's own attribute dictionary (identifier fields hold strings). -/
structure Entity (ε : Type) where
  skype : Session ε
  attrs : List (String × String)

/-- The accessor body `userObj`, i.e. `self.skype.contacts[getattr(self, field)]`.  The
accessor catches nothing, so both a `getattr` failure and a directory
miss propagate to the caller. -/
def userObj (self : Entity ε) (field : String) : Except String ε :=
  match dictGet self.attrs field with
  | none => Except.error ("AttributeError: " ++ pyQuote field)
  | some ident => dirLookup self.skype.contacts ident

/-! ## `SkypeUtils.exhaust`

The generator repeatedly calls the fetch function; a falsy result ends
the stream, otherwise each item of (the transform of) the page is
yielded before fetching again.  The fetch function's successive return
values are modelled as a list of pages (`truthy` is the page's Python
truthiness, `items` its direct iteration); the Python loop would call
the fetch function indefinitely, and the claims concern return streams
that end with a falsy page. -/

def exhaust (truthy : π → Bool) (items : π → List α)
    (transform : Option (π → List α)) : List π → List α
  | [] => []
  | p :: ps =>
      if truthy p then
        (match transform with
         | some t => t p
         | none => items p) ++ exhaust truthy items transform ps
      else []

/-! ## Lemmas and claim theorems -/

theorem dictGet_dictSet_self [DecidableEq κ] (d : List (κ × α)) (k : κ) (v : α) :
    dictGet (dictSet d k v) k = some v := by
  induction d with
  | nil => simp [dictGet, dictSet]
  | cons p rest ih =>
      obtain ⟨k₀, v₀⟩ := p
      by_cases h : k₀ = k
      · simp [dictGet, dictSet, h]
      · simp [dictGet, dictSet, h, ih]

theorem dictGet_dictSet_ne [DecidableEq κ] (d : List (κ × α)) (k k' : κ) (v : α)
    (h : k' ≠ k) : dictGet (dictSet d k v) k' = dictGet d k' := by
  have h' : ¬ k = k' := fun hk => h hk.symm
  induction d with
  | nil => simp [dictGet, dictSet, h']
  | cons p rest ih =>
      obtain ⟨k₀, v₀⟩ := p
      by_cases h₀ : k₀ = k
      · subst h₀
        simp [dictGet, dictSet, h']
      · simp only [dictSet, if_neg h₀, dictGet]
        by_cases h₁ : k₀ = k' <;> simp [h₁, ih]

theorem dictGet_eq_none_iff [DecidableEq κ] (d : List (κ × α)) (k : κ) :
    dictGet d k = none ↔ k ∉ dictKeys d := by
  induction d with
  | nil => simp [dictGet, dictKeys]
  | cons p rest ih =>
      obtain ⟨k₀, v₀⟩ := p
      by_cases h : k₀ = k
      · simp [dictGet, dictKeys, h]
      · have h' : ¬ k = k₀ := fun hk => h hk.symm
        simp only [dictGet, if_neg h, ih, dictKeys, List.map_cons, List.mem_cons]
        constructor
        · intro hk hc
          rcases hc with hc | hc
          · exact h' hc
          · exact hk hc
        · intro hk hc
          exact hk (Or.inr hc)

theorem mem_dictKeys_dictSet [DecidableEq κ] (d : List (κ × α)) (k k' : κ) (v : α) :
    k' ∈ dictKeys (dictSet d k v) ↔ k' ∈ dictKeys d ∨ k' = k := by
  induction d with
  | nil => simp [dictSet, dictKeys]
  | cons p rest ih =>
      obtain ⟨k₀, v₀⟩ := p
      by_cases h : k₀ = k
      · subst h
        simp only [dictSet, eq_self_iff_true, if_true, dictKeys, List.map_cons,
          List.mem_cons]
        tauto
      · simp only [dictSet, if_neg h, dictKeys, List.map_cons, List.mem_cons] at ih ⊢
        rw [ih, or_assoc]

theorem pySplit1_of_not_contains (cs : List Char) (h : ':' ∉ cs) :
    pySplit1 cs = [cs] := by
  induction cs with
  | nil => rfl
  | cons c rest ih =>
      have hc : ¬ c = ':' := fun hc => h (by simp [hc])
      have hr : ':' ∉ rest := fun hr => h (List.mem_cons_of_mem _ hr)
      simp [pySplit1, hc, ih hr]

theorem pySplit1_of_contains (cs : List Char) (h : ':' ∈ cs) :
    ∃ before after, cs = before ++ ':' :: after ∧ ':' ∉ before ∧
      pySplit1 cs = [before, after] := by
  induction cs with
  | nil => cases h
  | cons c rest ih =>
      by_cases hc : c = ':'
      · exact ⟨[], rest, by simp [hc], by simp, by simp [pySplit1, hc]⟩
      · have hr : ':' ∈ rest := by
          rcases List.mem_cons.mp h with h' | h'
          · exact absurd h'.symm hc
          · exact h'
        obtain ⟨b, a, hsplit, hb, hps⟩ := ih hr
        refine ⟨c :: b, a, by simp [hsplit], ?_, by simp [pySplit1, hc, hps]⟩
        intro hmem
        rcases List.mem_cons.mp hmem with h' | h'
        · exact hc h'.symm
        · exact hb h'

theorem mergeLoop_eq_ok (as : List (Option β)) :
    ∀ (ks : List String) kw, as.length ≤ ks.length →
      mergeLoop as ks kw = Except.ok (mergeList as ks kw) := by
  induction as with
  | nil => intro ks kw _; cases ks <;> rfl
  | cons a as ih =>
      intro ks kw h
      cases ks with
      | nil => simp at h
      | cons k ks =>
          simp only [List.length_cons, Nat.succ_le_succ_iff] at h
          simp only [mergeLoop, mergeList]
          exact ih ks (dictSet kw k a) h

theorem dictGet_mergeList_of_not_mem_take (as : List (Option β)) :
    ∀ (ks : List String) kw k, k ∉ ks.take as.length →
      dictGet (mergeList as ks kw) k = dictGet kw k := by
  induction as with
  | nil => intro ks kw k _; cases ks <;> rfl
  | cons a as ih =>
      intro ks kw k h
      cases ks with
      | nil => rfl
      | cons k₀ ks =>
          simp only [List.length_cons, List.take_succ_cons, List.mem_cons, not_or] at h
          simp only [mergeList]
          rw [ih ks (dictSet kw k₀ a) k h.2, dictGet_dictSet_ne _ _ _ _ h.1]

theorem dictGet_mergeList_prefix (as : List (Option β)) :
    ∀ (ks : List String) kw (i : Nat) (hi : i < as.length) (hk : i < ks.length),
      (ks.take as.length).Nodup →
      dictGet (mergeList as ks kw) (ks.get ⟨i, hk⟩) = some (as.get ⟨i, hi⟩) := by
  induction as with
  | nil => intro ks kw i hi; simp at hi
  | cons a as ih =>
      intro ks kw i hi hk hnd
      cases ks with
      | nil => simp at hk
      | cons k₀ ks =>
          simp only [List.length_cons, List.take_succ_cons, List.nodup_cons] at hnd
          cases i with
          | zero =>
              simp only [mergeList, List.get]
              rw [dictGet_mergeList_of_not_mem_take as ks _ k₀ hnd.1,
                dictGet_dictSet_self]
          | succ i =>
              simp only [mergeList, List.get]
              exact ih ks (dictSet kw k₀ a) i (Nat.lt_of_succ_lt_succ hi)
                (Nat.lt_of_succ_lt_succ hk) hnd.2

theorem mem_dictKeys_mergeList (as : List (Option β)) :
    ∀ (ks : List String) kw k,
      k ∈ dictKeys (mergeList as ks kw) ↔
        k ∈ dictKeys kw ∨ k ∈ ks.take as.length := by
  induction as with
  | nil => intro ks kw k; cases ks <;> simp [mergeList]
  | cons a as ih =>
      intro ks kw k
      cases ks with
      | nil => simp [mergeList]
      | cons k₀ ks =>
          simp only [mergeList, List.length_cons, List.take_succ_cons, List.mem_cons]
          rw [ih ks (dictSet kw k₀ a) k, mem_dictKeys_dictSet]
          tauto

theorem mem_insertSorted (x a : String) (l : List String) :
    a ∈ insertSorted x l ↔ a = x ∨ a ∈ l := by
  induction l with
  | nil => simp [insertSorted]
  | cons y ys ih =>
      by_cases h : x ≤ y
      · simp [insertSorted, h]
      · simp only [insertSorted, if_neg h, List.mem_cons, ih]
        tauto

theorem mem_pySorted (a : String) (l : List String) : a ∈ pySorted l ↔ a ∈ l := by
  induction l with
  | nil => simp [pySorted]
  | cons x xs ih =>
      simp only [pySorted, List.foldr_cons] at ih ⊢
      rw [mem_insertSorted, ih, List.mem_cons]

theorem sorted_insertSorted (x : String) (l : List String)
    (h : l.Sorted (· ≤ ·)) : (insertSorted x l).Sorted (· ≤ ·) := by
  induction l with
  | nil => simp [insertSorted]
  | cons y ys ih =>
      rw [List.sorted_cons] at h
      by_cases hxy : x ≤ y
      · rw [insertSorted, if_pos hxy, List.sorted_cons]
        refine ⟨?_, List.sorted_cons.mpr h⟩
        intro b hb
        rcases List.mem_cons.mp hb with hb | hb
        · exact hb ▸ hxy
        · exact le_trans hxy (h.1 b hb)
      · rw [insertSorted, if_neg hxy, List.sorted_cons]
        refine ⟨?_, ih h.2⟩
        intro b hb
        rcases (mem_insertSorted x b ys).mp hb with hb | hb
        · exact hb ▸ le_of_not_le hxy
        · exact h.1 b hb

theorem sorted_pySorted (l : List String) : (pySorted l).Sorted (· ≤ ·) := by
  induction l with
  | nil => simp [pySorted]
  | cons x xs ih =>
      simp only [pySorted, List.foldr_cons] at ih ⊢
      exact sorted_insertSorted x _ ih

theorem nodup_insertSorted (x : String) (l : List String) (hx : x ∉ l)
    (h : l.Nodup) : (insertSorted x l).Nodup := by
  induction l with
  | nil => simp [insertSorted]
  | cons y ys ih =>
      rw [List.nodup_cons] at h
      have hxy : ¬ x = y := fun he => hx (by simp [he])
      have hxys : x ∉ ys := fun he => hx (List.mem_cons_of_mem _ he)
      by_cases hle : x ≤ y
      · rw [insertSorted, if_pos hle, List.nodup_cons, List.nodup_cons]
        exact ⟨by simp [hxy, hxys], h.1, h.2⟩
      · rw [insertSorted, if_neg hle, List.nodup_cons]
        refine ⟨?_, ih hxys h.2⟩
        intro hmem
        rcases (mem_insertSorted x y ys).mp hmem with he | he
        · exact hxy he.symm
        · exact h.1 he

theorem nodup_pySorted (l : List String) (h : l.Nodup) : (pySorted l).Nodup := by
  induction l with
  | nil => simp [pySorted]
  | cons x xs ih =>
      rw [List.nodup_cons] at h
      simp only [pySorted, List.foldr_cons] at ih ⊢
      exact nodup_insertSorted x _ (fun hm => h.1 ((mem_pySorted x xs).mp hm)) (ih h.2)

theorem get_not_mem_take (l : List String) (hnd : l.Nodup) (n i : Nat)
    (hi : i < l.length) (hni : n ≤ i) : l.get ⟨i, hi⟩ ∉ l.take n := by
  intro hmem
  obtain ⟨j, hj, hje⟩ := List.mem_iff_getElem.mp hmem
  rw [List.getElem_take] at hje
  have hjn : j < n := by
    simp only [List.length_take] at hj
    omega
  have hjl : j < l.length := Nat.lt_of_lt_of_le hjn (Nat.le_trans hni (Nat.le_of_lt hi))
  have hij : (⟨j, hjl⟩ : Fin l.length) = ⟨i, hi⟩ :=
    (List.Nodup.get_inj_iff hnd).mp hje
  have : j = i := congrArg Fin.val hij
  omega

theorem dictGet_foldl_dictSet (ks : List String) (f : String → Option β) :
    ∀ (d : List (String × Option β)) (k : String),
      dictGet (ks.foldl (fun d k => dictSet d k (f k)) d) k =
        if k ∈ ks then some (f k) else dictGet d k := by
  induction ks with
  | nil => intro d k; simp
  | cons k₀ ks ih =>
      intro d k
      simp only [List.foldl_cons, List.mem_cons]
      rw [ih]
      by_cases hmem : k ∈ ks
      · simp [hmem]
      · by_cases hk : k = k₀
        · subst hk
          simp [hmem, dictGet_dictSet_self]
        · simp [hmem, hk, dictGet_dictSet_ne d k₀ k (f k₀) hk]

theorem dictGet_finalAttrs (attrs : List String) (f : String → Option β) (k : String) :
    dictGet (finalAttrs (Event.callSuper ::
        attrs.map (fun k => Event.setAttr k (f k)))) k =
      if k ∈ attrs then some (f k) else none := by
  have hfold : finalAttrs (Event.callSuper ::
      attrs.map (fun k => Event.setAttr k (f k))) =
      attrs.foldl (fun d k => dictSet d k (f k)) [] := by
    simp only [finalAttrs, List.foldl_cons, applyEvent, List.foldl_map]
  rw [hfold, dictGet_foldl_dictSet]
  rfl

/-- When the positional arguments fit the schema and every keyword
targets a schema name, the generated initializer raises nothing and its
trace is the `super` call followed by one assignment per schema
attribute. -/
theorem initAttrsInit_success (attrs : List String)
    (defaults : List (String × Option β)) (args : List (Option β))
    (kwargs : List (String × Option β))
    (hlen : args.length ≤ attrs.length)
    (hkw : ∀ k ∈ dictKeys kwargs, k ∈ attrs) :
    initAttrsInit attrs defaults args kwargs =
      (Event.callSuper :: attrs.map (fun k =>
        Event.setAttr k (pyGet (mergeList args attrs kwargs) k (pyGet defaults k none))),
       none) := by
  have hfilter :
      ((dictKeys (mergeList args attrs kwargs)).filter
        (fun k => decide (k ∉ attrs))).dedup = [] := by
    rw [List.dedup_eq_nil, List.filter_eq_nil_iff]
    intro k hk
    rcases (mem_dictKeys_mergeList args attrs kwargs k).mp hk with h | h
    · simp [hkw k h]
    · simp [List.mem_of_mem_take h]
  rw [initAttrsInit, mergeLoop_eq_ok args attrs kwargs hlen]
  simp [hfilter]
  intro k hk
  rcases (mem_dictKeys_mergeList args attrs kwargs k).mp hk with h | h
  · exact hkw k h
  · exact List.mem_of_mem_take h

/-- C2: with positional and keyword arguments all targeting schema
names, construction succeeds; each positionally bound attribute holds
its positional value, and every other attribute holds its keyword value
if supplied, else its declared default, else `None`. -/
theorem initAttrs_defaults_C2 {β : Type} (attrs : List String)
    (defaults : List (String × Option β)) (args : List (Option β))
    (kwargs : List (String × Option β))
    (hnd : attrs.Nodup)
    (hlen : args.length ≤ attrs.length)
    (hkw : ∀ k ∈ dictKeys kwargs, k ∈ attrs) :
    (initAttrsInit attrs defaults args kwargs).2 = none ∧
    ∀ (i : Nat) (hi : i < attrs.length),
      dictGet (finalAttrs (initAttrsInit attrs defaults args kwargs).1)
          (attrs.get ⟨i, hi⟩) =
        some (if h : i < args.length then args.get ⟨i, h⟩
              else pyGet kwargs (attrs.get ⟨i, hi⟩)
                (pyGet defaults (attrs.get ⟨i, hi⟩) none)) := by
  rw [initAttrsInit_success attrs defaults args kwargs hlen hkw]
  refine ⟨rfl, ?_⟩
  intro i hi
  rw [dictGet_finalAttrs, if_pos (List.get_mem attrs i hi)]
  by_cases h : i < args.length
  · rw [dif_pos h]
    have htake : (attrs.take args.length).Nodup :=
      List.Nodup.sublist (List.take_sublist _ _) hnd
    rw [pyGet, dictGet_mergeList_prefix args attrs kwargs i h hi htake]
    rfl
  · rw [dif_neg h]
    have hnot : attrs.get ⟨i, hi⟩ ∉ attrs.take args.length :=
      get_not_mem_take attrs hnd args.length i hi (Nat.le_of_not_lt h)
    rw [pyGet, dictGet_mergeList_of_not_mem_take args attrs kwargs _ hnot]
    rfl

/-- Witness for C2 at a concrete schema: attributes `a`, `b`, `c` with
default `b := 5`, positional `a := 1`, keyword `c := 9`. -/
theorem initAttrs_defaults_C2_witness :
    (initAttrsInit ["a", "b", "c"] [("b", some 5)] [some 1] [("c", some 9)]).2 = none ∧
    ∀ (i : Nat) (hi : i < (["a", "b", "c"] : List String).length),
      dictGet (finalAttrs
          (initAttrsInit ["a", "b", "c"] [("b", some (5 : Nat))] [some 1]
            [("c", some 9)]).1)
          ((["a", "b", "c"] : List String).get ⟨i, hi⟩) =
        some (if h : i < ([some (1 : Nat)] : List (Option Nat)).length
              then ([some 1] : List (Option Nat)).get ⟨i, h⟩
              else pyGet [("c", some 9)] ((["a", "b", "c"] : List String).get ⟨i, hi⟩)
                (pyGet [("b", some 5)] ((["a", "b", "c"] : List String).get ⟨i, hi⟩)
                  none)) :=
  initAttrs_defaults_C2 ["a", "b", "c"] [("b", some 5)] [some 1] [("c", some 9)]
    (by decide) (by decide) (by decide)

/-- C1 counterexample: with schema `["a"]`, two positional arguments and
the unknown keyword `bogus`, construction fails with `IndexError` from
`cls.attrs[i]`, not with the `TypeError` listing the unexpected name. -/
theorem initAttrs_unknown_kwargs_C1_counterexample :
    (initAttrsInit (β := Nat) ["a"] [] [some 0, some 1] [("bogus", some 2)]).2 =
      some "IndexError: tuple index out of range" ∧
    "IndexError: tuple index out of range" ≠ unknownArgsMsg ["bogus"] := by
  refine ⟨rfl, ?_⟩
  decide

/-- C1 (amended): provided the positional arguments do not outnumber the
schema attributes, a call with any keyword argument outside the schema
fails with the `TypeError` whose message names exactly the unexpected
keywords, sorted, and the trace holds only the `super` call — no schema
attribute is set. -/
theorem initAttrs_unknown_kwargs_C1 {β : Type} (attrs : List String)
    (defaults : List (String × Option β)) (args : List (Option β))
    (kwargs : List (String × Option β))
    (hlen : args.length ≤ attrs.length)
    (hbad : ∃ k ∈ dictKeys kwargs, k ∉ attrs) :
    ∃ u : List String,
      (initAttrsInit attrs defaults args kwargs).2 = some (unknownArgsMsg u) ∧
      u ≠ [] ∧ u.Sorted (· ≤ ·) ∧ u.Nodup ∧
      (∀ k, k ∈ u ↔ k ∈ dictKeys kwargs ∧ k ∉ attrs) ∧
      (initAttrsInit attrs defaults args kwargs).1 = [Event.callSuper] := by
  obtain ⟨k₀, hk₀, hk₀n⟩ := hbad
  have hmerged : ∀ k, k ∉ attrs →
      (k ∈ dictKeys (mergeList args attrs kwargs) ↔ k ∈ dictKeys kwargs) := by
    intro k hkn
    rw [mem_dictKeys_mergeList]
    constructor
    · intro h
      rcases h with h | h
      · exact h
      · exact absurd (List.mem_of_mem_take h) hkn
    · exact Or.inl
  set unknown := ((dictKeys (mergeList args attrs kwargs)).filter
    (fun k => decide (k ∉ attrs))).dedup with hun
  have hmemu : ∀ k, k ∈ unknown ↔ k ∈ dictKeys kwargs ∧ k ∉ attrs := by
    intro k
    rw [hun, List.mem_dedup, List.mem_filter]
    constructor
    · intro ⟨h₁, h₂⟩
      have h₂' : k ∉ attrs := by simpa using h₂
      exact ⟨(hmerged k h₂').mp h₁, h₂'⟩
    · intro ⟨h₁, h₂⟩
      exact ⟨(hmerged k h₂).mpr h₁, by simpa using h₂⟩
  have hne : unknown ≠ [] := by
    intro h
    have := (hmemu k₀).mpr ⟨hk₀, hk₀n⟩
    rw [h] at this
    cases this
  refine ⟨pySorted unknown, ?_, ?_, sorted_pySorted unknown,
    nodup_pySorted unknown (List.nodup_dedup _), ?_, ?_⟩
  · rw [initAttrsInit, mergeLoop_eq_ok args attrs kwargs hlen]
    simp only [← hun, if_neg hne]
  · intro h
    have := (mem_pySorted k₀ unknown).mpr ((hmemu k₀).mpr ⟨hk₀, hk₀n⟩)
    rw [h] at this
    cases this
  · intro k
    rw [mem_pySorted, hmemu]
  · rw [initAttrsInit, mergeLoop_eq_ok args attrs kwargs hlen]
    simp only [← hun, if_neg hne]

/-- Witness for the amended C1: schema `["a"]`, unknown keywords `z`
and `b` supplied. -/
theorem initAttrs_unknown_kwargs_C1_witness :
    ∃ u : List String,
      (initAttrsInit (β := Nat) ["a"] [] [] [("z", some 1), ("b", none)]).2 =
        some (unknownArgsMsg u) ∧
      u ≠ [] ∧ u.Sorted (· ≤ ·) ∧ u.Nodup ∧
      (∀ k, k ∈ u ↔
        k ∈ dictKeys [("z", some (1 : Nat)), ("b", none)] ∧
          k ∉ (["a"] : List String)) ∧
      (initAttrsInit (β := Nat) ["a"] [] [] [("z", some 1), ("b", none)]).1 =
        [Event.callSuper] :=
  initAttrs_unknown_kwargs_C1 ["a"] [] [] [("z", some 1), ("b", none)]
    (by decide) ⟨"z", by decide, by decide⟩

/-- C9: when an attribute is bound both positionally and by keyword, no
error is raised and the positional value silently overwrites the
keyword one (positional values are merged into the keyword dict on top
of any existing entry). -/
theorem initAttrs_positional_overrides_C9 {β : Type} (attrs : List String)
    (defaults : List (String × Option β)) (args : List (Option β))
    (kwargs : List (String × Option β)) (i : Nat)
    (hnd : attrs.Nodup) (hlen : args.length ≤ attrs.length)
    (hkw : ∀ k ∈ dictKeys kwargs, k ∈ attrs)
    (hi : i < attrs.length) (hia : i < args.length)
    (_hdup : attrs.get ⟨i, hi⟩ ∈ dictKeys kwargs) :
    (initAttrsInit attrs defaults args kwargs).2 = none ∧
    dictGet (finalAttrs (initAttrsInit attrs defaults args kwargs).1)
        (attrs.get ⟨i, hi⟩) = some (args.get ⟨i, hia⟩) := by
  rw [initAttrsInit_success attrs defaults args kwargs hlen hkw]
  refine ⟨rfl, ?_⟩
  rw [dictGet_finalAttrs, if_pos (List.get_mem attrs i hi)]
  have htake : (attrs.take args.length).Nodup :=
    List.Nodup.sublist (List.take_sublist _ _) hnd
  rw [pyGet, dictGet_mergeList_prefix args attrs kwargs i hia hi htake]
  rfl

/-- Witness for C9: attribute `a` bound positionally to `1` and by
keyword to `2`; the instance ends with `a = 1` and no error. -/
theorem initAttrs_positional_overrides_C9_witness :
    (initAttrsInit ["a"] [] [some 1] [("a", some 2)]).2 = none ∧
    dictGet (finalAttrs (initAttrsInit ["a"] [] [some (1 : Nat)]
        [("a", some 2)]).1)
        ((["a"] : List String).get ⟨0, by decide⟩) = some (some 1) :=
  initAttrs_positional_overrides_C9 ["a"] [] [some 1] [("a", some 2)] 0
    (by decide) (by decide) (by decide) (by decide) (by decide) (by decide)

/-- C8 counterexample: with schema `["a"]` and no arguments, the trace
is the `super` call followed by the attribute assignment — no schema
attribute is set before the deferral to the supertype initializer. -/
theorem initAttrs_super_C8_counterexample :
    (initAttrsInit (β := Nat) ["a"] [] [] []).1 =
      [Event.callSuper, Event.setAttr "a" none] ∧
    ¬ ∃ i j : Fin ((initAttrsInit (β := Nat) ["a"] [] [] []).1.length),
        (i : Nat) < (j : Nat) ∧
        (initAttrsInit (β := Nat) ["a"] [] [] []).1.get i =
          Event.setAttr "a" none ∧
        (initAttrsInit (β := Nat) ["a"] [] [] []).1.get j = Event.callSuper := by
  refine ⟨rfl, ?_⟩
  decide

/-- C8 (amended): the generated initializer defers to the supertype's
base-context initializer first — the `super` call heads the trace and
never recurs — and then, when construction succeeds, sets every schema
attribute. -/
theorem initAttrs_super_first_C8 {β : Type} (attrs : List String)
    (defaults : List (String × Option β)) (args : List (Option β))
    (kwargs : List (String × Option β)) :
    (initAttrsInit attrs defaults args kwargs).1.head? = some Event.callSuper ∧
    (∀ e ∈ (initAttrsInit attrs defaults args kwargs).1.tail,
      e ≠ Event.callSuper) ∧
    ((initAttrsInit attrs defaults args kwargs).2 = none →
      ∀ k ∈ attrs, ∃ v,
        Event.setAttr k v ∈ (initAttrsInit attrs defaults args kwargs).1.tail) := by
  rcases hm : mergeLoop (β := β) args attrs kwargs with e | merged
  · refine ⟨?_, ?_, ?_⟩ <;> simp [initAttrsInit, hm]
  · by_cases hu : ((dictKeys merged).filter (fun k => decide (k ∉ attrs))).dedup = []
    · have hres : initAttrsInit attrs defaults args kwargs =
          (Event.callSuper :: attrs.map (fun k =>
            Event.setAttr k (pyGet merged k (pyGet defaults k none))), none) := by
        rw [initAttrsInit, hm]
        exact if_pos hu
      rw [hres]
      refine ⟨rfl, ?_, ?_⟩
      · intro e he
        simp only [List.tail_cons, List.mem_map] at he
        obtain ⟨k, _, hk⟩ := he
        rw [← hk]
        intro hcontra
        cases hcontra
      · intro _ k hk
        exact ⟨_, by
          simp only [List.tail_cons, List.mem_map]
          exact ⟨k, hk, rfl⟩⟩
    · have hres : initAttrsInit attrs defaults args kwargs =
          ([Event.callSuper], some (unknownArgsMsg (pySorted
            (((dictKeys merged).filter (fun k => decide (k ∉ attrs))).dedup)))) := by
        rw [initAttrsInit, hm]
        exact if_neg hu
      rw [hres]
      exact ⟨rfl, by simp, by simp⟩

/-- Witness for the amended C8: schema `["a"]`, no arguments; the trace
head is the `super` call and `a` is set in the tail. -/
theorem initAttrs_super_first_C8_witness :
    (initAttrsInit (β := Nat) ["a"] [] [] []).1.head? = some Event.callSuper ∧
    (∀ e ∈ (initAttrsInit (β := Nat) ["a"] [] [] []).1.tail,
      e ≠ Event.callSuper) ∧
    ((initAttrsInit (β := Nat) ["a"] [] [] []).2 = none →
      ∀ k ∈ (["a"] : List String), ∃ v,
        Event.setAttr k v ∈ (initAttrsInit (β := Nat) ["a"] [] [] []).1.tail) :=
  initAttrs_super_first_C8 ["a"] [] [] []

theorem keyOf_all_pyHashable (args : List PyVal) (kwargs : List (String × PyVal))
    (h : args.all pyHashable = true) : (keyOf args kwargs).all pyHashable = true := by
  simp [keyOf, List.all_append, h, pyHashable]

/-- C3: from a fresh cache, two calls with the same hashable arguments
invoke the wrapped function exactly once and both return its value;
moreover an entry present in the cache survives any further call
unchanged (entries are never overwritten or evicted). -/
theorem cacheResult_memoizes_C3 :
    (∀ (f : PyFn) (args : List PyVal) (kwargs : List (String × PyVal)),
      args.all pyHashable = true →
      (cacheStep f [] args kwargs).2.2 +
        (cacheStep f (cacheStep f [] args kwargs).2.1 args kwargs).2.2 = 1 ∧
      (cacheStep f [] args kwargs).1 = f args kwargs ∧
      (cacheStep f (cacheStep f [] args kwargs).2.1 args kwargs).1 =
        (cacheStep f [] args kwargs).1) ∧
    (∀ (f : PyFn) (cache : List (List PyVal × PyVal)) (k : List PyVal)
      (v : PyVal) (args : List PyVal) (kwargs : List (String × PyVal)),
      dictGet cache k = some v →
      dictGet (cacheStep f cache args kwargs).2.1 k = some v) := by
  constructor
  · intro f args kwargs h
    have hkey := keyOf_all_pyHashable args kwargs h
    have hfst : cacheStep f [] args kwargs =
        (f args kwargs, dictSet [] (keyOf args kwargs) (f args kwargs), 1) := by
      rw [cacheStep]
      simp [hkey, dictGet]
    rw [hfst]
    have hsnd : cacheStep f (dictSet [] (keyOf args kwargs) (f args kwargs))
        args kwargs = (f args kwargs,
          dictSet [] (keyOf args kwargs) (f args kwargs), 0) := by
      rw [cacheStep]
      simp [hkey, dictGet_dictSet_self]
    rw [hsnd]
    exact ⟨rfl, rfl, rfl⟩
  · intro f cache k v args kwargs hk
    rw [cacheStep]
    by_cases hkey : (keyOf args kwargs).all pyHashable = true
    · simp only [hkey, Bool.true_eq_false, not_true_eq_false, if_false]
      rcases hget : dictGet cache (keyOf args kwargs) with _ | w
      · simp only []
        by_cases hk' : k = keyOf args kwargs
        · rw [hk'] at hk
          rw [hk] at hget
          cases hget
        · rw [dictGet_dictSet_ne cache _ k _ hk']
          exact hk
      · exact hk
    · simp [hkey, hk]

/-- Witness for C3: memoizing the head function at argument `3`, and
persistence of an existing entry across an unrelated call. -/
theorem cacheResult_memoizes_C3_witness :
    ((cacheStep (fun args _ => args.headD (PyVal.int 0)) [] [PyVal.int 3] []).2.2 +
      (cacheStep (fun args _ => args.headD (PyVal.int 0))
        (cacheStep (fun args _ => args.headD (PyVal.int 0)) [] [PyVal.int 3] []).2.1
        [PyVal.int 3] []).2.2 = 1 ∧
    (cacheStep (fun args _ => args.headD (PyVal.int 0)) [] [PyVal.int 3] []).1 =
      (fun (args : List PyVal) (_ : List (String × PyVal)) =>
        args.headD (PyVal.int 0)) [PyVal.int 3] [] ∧
    (cacheStep (fun args _ => args.headD (PyVal.int 0))
        (cacheStep (fun args _ => args.headD (PyVal.int 0)) [] [PyVal.int 3] []).2.1
        [PyVal.int 3] []).1 =
      (cacheStep (fun args _ => args.headD (PyVal.int 0)) [] [PyVal.int 3] []).1) ∧
    dictGet (cacheStep (fun args _ => args.headD (PyVal.int 0))
        [([PyVal.int 1], PyVal.int 2)] [PyVal.int 3] []).2.1
      [PyVal.int 1] = some (PyVal.int 2) :=
  ⟨cacheResult_memoizes_C3.1 (fun args _ => args.headD (PyVal.int 0))
      [PyVal.int 3] [] (by decide),
   cacheResult_memoizes_C3.2 (fun args _ => args.headD (PyVal.int 0))
      [([PyVal.int 1], PyVal.int 2)] [PyVal.int 1] (PyVal.int 2)
      [PyVal.int 3] [] (by decide)⟩

/-- C4 counterexample: a call whose only non-hashable argument is an
unhashable keyword value (a Python list) is cached, not bypassed — the
key only contains `str(kwargs)`, which is hashable — so the first call
stores an entry and an identical second call returns it without
invoking the function, contradicting the claimed
invoked-directly-on-every-such-call, nothing-stored behaviour. -/
theorem cacheResult_bypass_C4_counterexample :
    pyHashable (PyVal.pylist [1, 2]) = false ∧
    (cacheStep constSeven [] [] [("x", PyVal.pylist [1, 2])]).2.1 ≠ [] ∧
    (cacheStep constSeven
        (cacheStep constSeven [] [] [("x", PyVal.pylist [1, 2])]).2.1
        [] [("x", PyVal.pylist [1, 2])]).2.2 = 0 := by
  refine ⟨rfl, ?_, rfl⟩
  decide

/-- C4 (amended): the cache is bypassed exactly for unhashable
positional arguments: a call with any unhashable positional argument
invokes the function directly, stores nothing and leaves the cache
untouched, while keyword values never trigger the bypass — with all
positional arguments hashable the call's key is stored mapping to the
call's result, even when a keyword value is an unhashable container. -/
theorem cacheResult_bypass_C4 :
    (∀ (f : PyFn) (cache : List (List PyVal × PyVal)) (args : List PyVal)
      (kwargs : List (String × PyVal)),
      (∃ a ∈ args, pyHashable a = false) →
      cacheStep f cache args kwargs = (f args kwargs, cache, 1)) ∧
    (∀ (f : PyFn) (cache : List (List PyVal × PyVal)) (args : List PyVal)
      (kwargs : List (String × PyVal)),
      args.all pyHashable = true →
      dictGet (cacheStep f cache args kwargs).2.1 (keyOf args kwargs) =
        some ((cacheStep f cache args kwargs).1)) := by
  constructor
  · intro f cache args kwargs h
    obtain ⟨a, ha, hah⟩ := h
    have hkey : ¬ ((keyOf args kwargs).all pyHashable = true) := by
      intro hall
      have := (List.all_eq_true.mp hall) a (by simp [keyOf, ha])
      rw [hah] at this
      cases this
    rw [cacheStep]
    simp [hkey]
  · intro f cache args kwargs h
    have hkey := keyOf_all_pyHashable args kwargs h
    rcases hget : dictGet cache (keyOf args kwargs) with _ | w
    · have hres : cacheStep f cache args kwargs =
          (f args kwargs, dictSet cache (keyOf args kwargs) (f args kwargs), 1) := by
        rw [cacheStep]
        simp [hkey, hget]
      rw [hres, dictGet_dictSet_self]
    · have hres : cacheStep f cache args kwargs = (w, cache, 0) := by
        rw [cacheStep]
        simp [hkey, hget]
      rw [hres, hget]

/-- Witness for the amended C4: an unhashable positional list argument
computes directly leaving the pre-existing cache unchanged, while an
unhashable keyword value still gets its key-result entry stored. -/
theorem cacheResult_bypass_C4_witness :
    cacheStep (fun args _ => args.headD (PyVal.int 0))
        [([PyVal.int 1], PyVal.int 2)] [PyVal.pylist [5]] [] =
      ((fun (args : List PyVal) (_ : List (String × PyVal)) =>
          args.headD (PyVal.int 0)) [PyVal.pylist [5]] [],
        [([PyVal.int 1], PyVal.int 2)], 1) ∧
    dictGet (cacheStep (fun args _ => args.headD (PyVal.int 0)) []
        [PyVal.int 3] [("x", PyVal.pylist [4])]).2.1
        (keyOf [PyVal.int 3] [("x", PyVal.pylist [4])]) =
      some ((cacheStep (fun args _ => args.headD (PyVal.int 0)) []
        [PyVal.int 3] [("x", PyVal.pylist [4])]).1) :=
  ⟨cacheResult_bypass_C4.1 (fun args _ => args.headD (PyVal.int 0))
      [([PyVal.int 1], PyVal.int 2)] [PyVal.pylist [5]] [] (by decide),
   cacheResult_bypass_C4.2 (fun args _ => args.headD (PyVal.int 0)) []
      [PyVal.int 3] [("x", PyVal.pylist [4])] (by decide)⟩

/-- C5 counterexample: the same keyword mapping supplied in two
different orders yields different cache keys, and the second call
misses the entry written by the first and invokes the function again
(1 invocation, not 0). -/
theorem cacheResult_kwarg_order_C5_counterexample :
    keyOf [] [("a", PyVal.int 1), ("b", PyVal.int 2)] ≠
      keyOf [] [("b", PyVal.int 2), ("a", PyVal.int 1)] ∧
    (cacheStep constSeven
        (cacheStep constSeven [] [] [("a", PyVal.int 1), ("b", PyVal.int 2)]).2.1
        [] [("b", PyVal.int 2), ("a", PyVal.int 1)]).2.2 = 1 := by
  constructor
  · decide
  · rfl

/-- C5 (amended): the cache key is the positional arguments plus the
keyword dict's string representation, which follows the order the
keywords were supplied in; repeating a call with identical positional
arguments and the identical keyword order hits the entry written by the
first call and does not invoke the function again. -/
theorem cacheResult_same_order_hits_C5 (f : PyFn)
    (cache : List (List PyVal × PyVal)) (args : List PyVal)
    (kwargs : List (String × PyVal))
    (h : args.all pyHashable = true) :
    cacheStep f (cacheStep f cache args kwargs).2.1 args kwargs =
      ((cacheStep f cache args kwargs).1,
        (cacheStep f cache args kwargs).2.1, 0) := by
  have hkey := keyOf_all_pyHashable args kwargs h
  rcases hget : dictGet cache (keyOf args kwargs) with _ | w
  · have hfst : cacheStep f cache args kwargs =
        (f args kwargs, dictSet cache (keyOf args kwargs) (f args kwargs), 1) := by
      rw [cacheStep]
      simp [hkey, hget]
    rw [hfst, cacheStep]
    simp [hkey, dictGet_dictSet_self]
  · have hfst : cacheStep f cache args kwargs = (w, cache, 0) := by
      rw [cacheStep]
      simp [hkey, hget]
    rw [hfst, cacheStep]
    simp [hkey, hget]

/-- Witness for the amended C5: repeating `f(1, a=2)` hits the cache. -/
theorem cacheResult_same_order_hits_C5_witness :
    cacheStep constSeven
        (cacheStep constSeven [] [PyVal.int 1] [("a", PyVal.int 2)]).2.1
        [PyVal.int 1] [("a", PyVal.int 2)] =
      ((cacheStep constSeven [] [PyVal.int 1] [("a", PyVal.int 2)]).1,
        (cacheStep constSeven [] [PyVal.int 1] [("a", PyVal.int 2)]).2.1, 0) :=
  cacheResult_same_order_hits_C5 constSeven [] [PyVal.int 1]
    [("a", PyVal.int 2)] (by decide)

/-- C10: `noPrefix` passes a null input through and strips up to the
first colon when one exists, but on a non-null string containing no
colon it raises `IndexError` rather than returning the string
unchanged. -/
theorem noPrefix_no_colon_C10 (t : List Char) :
    noPrefix none = Except.ok none ∧
    (':' ∉ t →
      noPrefix (some t) = Except.error "IndexError: list index out of range") ∧
    (':' ∈ t → ∃ before after, t = before ++ ':' :: after ∧ ':' ∉ before ∧
      noPrefix (some t) = Except.ok (some after)) := by
  refine ⟨rfl, ?_, ?_⟩
  · intro h
    simp [noPrefix, pySplit1_of_not_contains t h]
  · intro h
    obtain ⟨b, a, he, hb, hs⟩ := pySplit1_of_contains t h
    exact ⟨b, a, he, hb, by simp [noPrefix, hs]⟩

/-- Witness for C10: `"ab"` (no colon) raises `IndexError`; `"8:a"`
strips to `"a"`. -/
theorem noPrefix_no_colon_C10_witness :
    noPrefix (some ['a', 'b']) =
      Except.error "IndexError: list index out of range" ∧
    (∃ before after, (['8', ':', 'a'] : List Char) = before ++ ':' :: after ∧
      ':' ∉ before ∧ noPrefix (some ['8', ':', 'a']) = Except.ok (some after)) :=
  ⟨(noPrefix_no_colon_C10 ['a', 'b']).2.1 (by decide),
   (noPrefix_no_colon_C10 ['8', ':', 'a']).2.2 (by decide)⟩

/-- C6: reading a single-identifier accessor looks the stored
identifier up in the session's contacts directory; it returns the
matching entity on a hit, and on a miss fails with the propagated
`KeyError`. -/
theorem userObj_lookup_C6 {ε : Type} (self : Entity ε) (field uid : String)
    (hstored : dictGet self.attrs field = some uid) :
    (∀ e, dictGet self.skype.contacts uid = some e →
      userObj self field = Except.ok e) ∧
    (dictGet self.skype.contacts uid = none →
      userObj self field = Except.error ("KeyError: " ++ pyQuote uid)) := by
  constructor
  · intro e he
    simp [userObj, hstored, dirLookup, he]
  · intro hmiss
    simp [userObj, hstored, dirLookup, hmiss]

/-- Witness for C6: with `userId = "alice"`, the accessor returns the
contacts entry for `"alice"` when present and raises `KeyError`
otherwise. -/
theorem userObj_lookup_C6_witness :
    userObj (Entity.mk (Session.mk [("alice", (42 : Nat))] [])
        [("userId", "alice")]) "userId" = Except.ok 42 ∧
    userObj (Entity.mk (Session.mk ([] : List (String × Nat)) [])
        [("userId", "alice")]) "userId" =
      Except.error ("KeyError: " ++ pyQuote "alice") :=
  ⟨(userObj_lookup_C6 (Entity.mk (Session.mk [("alice", (42 : Nat))] [])
      [("userId", "alice")]) "userId" "alice" (by decide)).1 42 (by decide),
   (userObj_lookup_C6 (Entity.mk (Session.mk ([] : List (String × Nat)) [])
      [("userId", "alice")]) "userId" "alice" (by decide)).2 (by decide)⟩

/-- C7: with truthy pages `p₁ … pₙ` followed by a falsy page, the
iterator yields exactly the items of `p₁` through `pₙ` — each page
iterated through the transform when one is supplied and directly
otherwise — in page order then item order, and terminates there. -/
theorem exhaust_pages_C7 {π α : Type} (truthy : π → Bool) (items : π → List α)
    (transform : Option (π → List α)) (pages : List π) (falsy : π)
    (rest : List π)
    (hall : ∀ p ∈ pages, truthy p = true) (hfalsy : truthy falsy = false) :
    exhaust truthy items transform (pages ++ falsy :: rest) =
      (pages.map (fun p => match transform with
        | some t => t p
        | none => items p)).flatten := by
  induction pages with
  | nil => simp [exhaust, hfalsy]
  | cons p ps ih =>
      have hp : truthy p = true := hall p (by simp)
      have hps : ∀ q ∈ ps, truthy q = true := fun q hq => hall q (by simp [hq])
      simp only [List.cons_append, exhaust, hp, if_true, List.map_cons,
        List.flatten_cons, List.append_eq]
      rw [ih hps]
      rfl

/-- Witness for C7: pages `[1,2]`, `[3]`, then the falsy `[]` yield
`1, 2, 3` (no transform; a list page is truthy iff non-empty). -/
theorem exhaust_pages_C7_witness :
    exhaust (fun p : List Nat => !p.isEmpty) (fun p => p) none
        ([[1, 2], [3]] ++ ([] : List Nat) :: []) =
      (([[1, 2], [3]] : List (List Nat)).map (fun p => p)).flatten :=
  exhaust_pages_C7 (fun p : List Nat => !p.isEmpty) (fun p => p) none
    [[1, 2], [3]] [] [] (by decide) (by decide)

end SkpyUtil
